import Mathlib

/-!
# Verification of the `one-commit` CLI core algorithms

A shallow embedding, in Lean 4, of the pure core of the `one-commit`
commit-message assistant: the diff-bounding policy (`processDiffContent`),
file classification (`analyzeChangedFiles`), the virtual-scrolling window
(`getVisibleRange`), the settings store (`getConfig` / `setConfig`), the
pending-changes query (`hasChanges`), the temporary stage/diff/unstage
sequence (`generateCommitMessageForFiles`), and the interactive picker's
keyboard transition function (`FileSelector`'s input handler).

Strings are modelled by Lean `String` / `List Char`; JavaScript's
`Math.max(0, a - b)` on non-negative integers coincides with truncated
natural subtraction; `Math.ceil(n / 4)` on a natural is `(n + 3) / 4`.
-/

set_option autoImplicit false

namespace OneCommit

/-! ## Line splitting and joining (JS `split('\n')` / `join('\n')`) -/

/-- JS `s.split('\n')` on a character list: the list of lines, where a
trailing newline yields a trailing empty line.  Never returns `[]`. -/
def splitLinesChars : List Char → List (List Char)
  | [] => [[]]
  | c :: cs =>
    match splitLinesChars cs with
    | [] => [[]]
    | l :: ls => if c = '\n' then [] :: l :: ls else (c :: l) :: ls

/-- JS `lines.join('\n')`. -/
def joinLinesChars : List (List Char) → List Char
  | [] => []
  | [l] => l
  | l :: ls => l ++ '\n' :: joinLinesChars ls

theorem joinLinesChars_cons_cons (l l' : List Char) (ls : List (List Char)) :
    joinLinesChars (l :: l' :: ls) = l ++ '\n' :: joinLinesChars (l' :: ls) := rfl

theorem splitLinesChars_ne_nil (cs : List Char) : splitLinesChars cs ≠ [] := by
  cases cs with
  | nil => simp [splitLinesChars]
  | cons c cs =>
    simp only [splitLinesChars]
    rcases splitLinesChars cs with _ | ⟨l, ls⟩
    · simp
    · dsimp only
      split <;> simp

theorem joinLines_splitLines (cs : List Char) :
    joinLinesChars (splitLinesChars cs) = cs := by
  induction cs with
  | nil => rfl
  | cons c cs ih =>
    simp only [splitLinesChars]
    rcases h : splitLinesChars cs with _ | ⟨l, ls⟩
    · exact absurd h (splitLinesChars_ne_nil cs)
    · rw [h] at ih
      dsimp only
      by_cases hc : c = '\n'
      · subst hc
        rw [if_pos rfl, joinLinesChars_cons_cons, ih]
        rfl
      · simp only [if_neg hc]
        cases ls with
        | nil => simpa [joinLinesChars] using ih
        | cons l' ls' =>
          rw [joinLinesChars_cons_cons] at ih ⊢
          rw [← ih]
          simp

theorem joinLinesChars_append (a b : List (List Char)) (ha : a ≠ []) (hb : b ≠ []) :
    joinLinesChars (a ++ b) = joinLinesChars a ++ '\n' :: joinLinesChars b := by
  induction a with
  | nil => exact absurd rfl ha
  | cons x a ih =>
    cases a with
    | nil =>
      cases b with
      | nil => exact absurd rfl hb
      | cons y b => simp [joinLinesChars_cons_cons, joinLinesChars]
    | cons x' a' =>
      have h2 := ih (by simp)
      simp only [List.cons_append] at h2 ⊢
      rw [joinLinesChars_cons_cons]
      cases ha' : a' ++ b with
      | nil => exact absurd (List.append_eq_nil.mp ha').2 hb
      | cons z zs =>
        rw [← ha', h2, joinLinesChars_cons_cons]
        simp

/-! ## Splitting a diff into file sections

The source splits on the multiline zero-width pattern `(?=^diff --git)`,
i.e. before every line that starts with `diff --git` (a zero-width match at
position 0 does not produce a leading empty piece), then drops empty
pieces with `filter(Boolean)`. -/

/-- Does a line begin a new file section? (`^diff --git`). -/
def isDiffHeaderLine (l : List Char) : Bool :=
  "diff --git".data.isPrefixOf l

/-- Does a run of lines start with a file-diff header? -/
def runStartsWithHeader : List (List Char) → Bool
  | [] => false
  | l :: _ => isDiffHeaderLine l

/-- Group the lines of the diff into runs, starting a new run at every
`diff --git` header line. -/
def groupSections : List (List Char) → List (List (List Char))
  | [] => []
  | l :: ls =>
    match groupSections ls with
    | [] => [[l]]
    | g :: gs =>
      if runStartsWithHeader g then [l] :: g :: gs else (l :: g) :: gs

/-- Rebuild each run into the section text the JS split produces: every
piece except the last keeps the newline that separates it from the next
header. -/
def sectionStringsOfRuns : List (List (List Char)) → List (List Char)
  | [] => []
  | [g] => [joinLinesChars g]
  | g :: gs => (joinLinesChars g ++ ['\n']) :: sectionStringsOfRuns gs

theorem sectionStrings_cons_cons (g g' : List (List Char)) (gs : List (List (List Char))) :
    sectionStringsOfRuns (g :: g' :: gs) =
      (joinLinesChars g ++ ['\n']) :: sectionStringsOfRuns (g' :: gs) := rfl

theorem groupSections_flatten (ls : List (List Char)) :
    (groupSections ls).flatten = ls := by
  induction ls with
  | nil => rfl
  | cons l ls ih =>
    simp only [groupSections]
    rcases h : groupSections ls with _ | ⟨g, gs⟩ <;> rw [h] at ih
    · simp only [List.flatten_nil] at ih
      simp [← ih]
    · simp only [List.flatten_cons] at ih
      dsimp only
      split <;> simp [← ih]

theorem groupSections_mem_ne_nil (ls : List (List Char)) (g : List (List Char))
    (hg : g ∈ groupSections ls) : g ≠ [] := by
  induction ls generalizing g with
  | nil => simp [groupSections] at hg
  | cons l ls ih =>
    simp only [groupSections] at hg
    rcases h : groupSections ls with _ | ⟨g', gs⟩ <;> rw [h] at hg
    · simp at hg; simp [hg]
    · dsimp only at hg
      split at hg <;> simp only [List.mem_cons] at hg
      · rcases hg with hg | hg | hg
        · simp [hg]
        · apply ih g; rw [h, hg]; exact List.mem_cons_self g' gs
        · apply ih g; rw [h]; exact List.mem_cons_of_mem g' hg
      · rcases hg with hg | hg
        · simp [hg]
        · apply ih g; rw [h]; exact List.mem_cons_of_mem g' hg

theorem flatten_ne_nil_of_head_ne_nil (g : List (List Char)) (gs : List (List (List Char)))
    (hg : g ≠ []) : (g :: gs).flatten ≠ [] := by
  simp only [List.flatten_cons]
  intro h
  exact hg (List.append_eq_nil.mp h).1

theorem flatten_sectionStrings (runs : List (List (List Char)))
    (h : ∀ g ∈ runs, g ≠ []) :
    (sectionStringsOfRuns runs).flatten = joinLinesChars runs.flatten := by
  induction runs with
  | nil => rfl
  | cons g gs ih =>
    cases gs with
    | nil => simp [sectionStringsOfRuns, joinLinesChars]
    | cons g' gs' =>
      have hg : g ≠ [] := h g (by simp)
      have hg' : g' ≠ [] := h g' (by simp)
      have hrest : ∀ x ∈ g' :: gs', x ≠ [] := fun x hx => h x (List.mem_cons_of_mem g hx)
      rw [sectionStrings_cons_cons, List.flatten_cons, ih hrest]
      conv_rhs => rw [List.flatten_cons]
      rw [joinLinesChars_append g ((g' :: gs').flatten) hg
        (flatten_ne_nil_of_head_ne_nil g' gs' hg')]
      simp

/-- The file sections of a diff text, as in the source:
`diffContent.split(/(?=^diff --git)/m).filter(Boolean)`. -/
def fileSections (diffContent : String) : List (List Char) :=
  (sectionStringsOfRuns (groupSections (splitLinesChars diffContent.data))).filter
    (fun s => !s.isEmpty)

theorem flatten_filter_not_isEmpty (l : List (List Char)) :
    (l.filter (fun s => !s.isEmpty)).flatten = l.flatten := by
  induction l with
  | nil => rfl
  | cons x xs ih =>
    by_cases hx : x.isEmpty
    · have hxe : x = [] := by cases x <;> simp_all [List.isEmpty]
      simp [List.filter, hx, hxe, ih]
    · simp [List.filter, hx, ih]

/-- Reassembling the file sections gives back the characters of the input:
the split is a partition of the diff text. -/
theorem flatten_fileSections (d : String) : (fileSections d).flatten = d.data := by
  rw [fileSections, flatten_filter_not_isEmpty,
    flatten_sectionStrings _ (groupSections_mem_ne_nil _),
    groupSections_flatten, joinLines_splitLines]

theorem fileSections_nil_imp (d : String) (h : fileSections d = []) : d = "" := by
  have hj := flatten_fileSections d
  rw [h] at hj
  simp only [List.flatten_nil] at hj
  cases d with
  | mk data => simp_all

/-! ## The diff-bounding policy (`processDiffContent` in `src/ai.ts`) -/

/-- `Math.ceil(text.length / 4)`: roughly 4 characters per token. -/
def estimateTokens (text : List Char) : Nat :=
  (text.length + 3) / 4

def MAX_TOKENS : Nat := 50000

def MAX_LINES_PER_FILE : Nat := 2000

def FALLBACK_LINES_PER_FILE : Nat := 20

/-- The regex `^diff --git a\/(.+?) b\/(.+?)$` (multiline, lazy groups): at
the first occurrence of `" b/"` after `"a/"` with a non-empty group on each
side, return the rest of the line. Backtracks past a `" b/"` whose remainder
is empty. -/
def scanBName : List Char → Option (List Char)
  | [] => none
  | ' ' :: 'b' :: '/' :: rest =>
    if rest.isEmpty then scanBName ('b' :: '/' :: rest) else some rest
  | _ :: cs => scanBName cs

/-- Match one line against `^diff --git a\/(.+?) b\/(.+?)$`. -/
def extractFromLine (line : List Char) : Option (List Char) :=
  match line with
  | 'd' :: 'i' :: 'f' :: 'f' :: ' ' :: '-' :: '-' :: 'g' :: 'i' :: 't' :: ' ' :: 'a' :: '/' :: c :: rest =>
    -- group 1 consumes at least one character (`c`), then the scan looks
    -- for the earliest valid `" b/"` split
    match scanBName (c :: rest) with
    | some bname => some bname
    | none => none
  | _ => none

/-- The first line (in order) whose header-regex match succeeds gives the
file name; with no match the fallback is `"unknown file"`. -/
def extractFileNameFromLines : List (List Char) → String
  | [] => "unknown file"
  | l :: ls =>
    match extractFromLine l with
    | some bname => String.mk bname
    | none => extractFileNameFromLines ls

/-- `extractFileName(diffSection)`: the `b/` name of the first line of the
section matching the header regex, or `"unknown file"`. -/
def extractFileName (sec : List Char) : String :=
  extractFileNameFromLines (splitLinesChars sec)

/-- Tier 1: a section longer than `MAX_LINES_PER_FILE` lines is truncated
to its first `MAX_LINES_PER_FILE` lines, with a warning. Returns the
processed section and the optional warning. -/
def limitSectionLines (sec : List Char) : List Char × Option String :=
  let lines := splitLinesChars sec
  if lines.length > MAX_LINES_PER_FILE then
    (joinLinesChars (lines.take MAX_LINES_PER_FILE),
      some ("File " ++ extractFileName sec ++ ": truncated to " ++
        toString MAX_LINES_PER_FILE ++ " lines (original: " ++
        toString lines.length ++ " lines)"))
  else
    (sec, none)

/-- Does a line start with `'+'`? -/
def startsPlus (l : List Char) : Bool :=
  match l with
  | '+' :: _ => true
  | _ => false

/-- Does a line start with `'-'`? -/
def startsMinus (l : List Char) : Bool :=
  match l with
  | '-' :: _ => true
  | _ => false

/-- Does a line start with `"@@"`? -/
def startsHunk (l : List Char) : Bool :=
  match l with
  | '@' :: '@' :: _ => true
  | _ => false

/-- Tier 2: compress one section to a summary: an info line with the file
name and plus/minus line counts, the first 5 lines (git headers), up to 20
addition/deletion/hunk-marker lines, and a truncation marker when the
20-line cap was hit; empty pieces are dropped (`filter(Boolean)`). -/
def summarizeSection (sec : List Char) : List Char :=
  let fileName := extractFileName sec
  let lines := splitLinesChars sec
  let additionsCount := (lines.filter startsPlus).length
  let deletionsCount := (lines.filter startsMinus).length
  let headerLines := lines.take (min 5 lines.length)
  let diffPreview :=
    (lines.filter (fun l => startsPlus l || startsMinus l || startsHunk l)).take
      FALLBACK_LINES_PER_FILE
  let infoLine :=
    ("File: " ++ fileName ++ " (+" ++ toString additionsCount ++ " -" ++
      toString deletionsCount ++ " lines)").data
  let marker :=
    if diffPreview.length ≥ FALLBACK_LINES_PER_FILE then
      "... (diff truncated)".data
    else []
  joinLinesChars
    (((infoLine :: headerLines) ++ diffPreview ++ [marker]).filter
      (fun l => !l.isEmpty))

/-- JS `join('\n\n')` between summarized sections. -/
def joinDoubleNewline : List (List Char) → List Char
  | [] => []
  | [l] => l
  | l :: ls => l ++ '\n' :: '\n' :: joinDoubleNewline ls

/-- The result record of `processDiffContent`. -/
structure ProcessedDiff where
  content : String
  wasTruncated : Bool
  warnings : List String
deriving DecidableEq, Repr

/-- `processDiffContent(diffContent)` (`src/ai.ts`): three-tier degradation
of the diff to a `MAX_TOKENS` budget — per-file line caps, then summary
compression, then a hard character cutoff. -/
def processDiffContent (diffContent : String) : ProcessedDiff :=
  let secs := fileSections diffContent
  if secs.isEmpty then
    { content := diffContent, wasTruncated := false, warnings := [] }
  else
    let tier1 := secs.map limitSectionLines
    let warnings1 := tier1.filterMap Prod.snd
    let wasTruncated1 := tier1.any (fun p => p.snd.isSome)
    let combined1 := joinLinesChars (tier1.map Prod.fst)
    let tokens1 := estimateTokens combined1
    if tokens1 > MAX_TOKENS then
      let warnings2 := warnings1 ++
        ["Diff too large (" ++ toString tokens1 ++
          " tokens), compressing to summary format"]
      let summaries := secs.map summarizeSection
      let combined2 := joinDoubleNewline summaries
      let tokens2 := estimateTokens combined2
      if tokens2 > MAX_TOKENS then
        { content := String.mk (combined2.take (MAX_TOKENS * 4)),
          wasTruncated := true,
          warnings := warnings2 ++
            ["Content truncated to " ++ toString MAX_TOKENS ++ " tokens limit"] }
      else
        { content := String.mk combined2, wasTruncated := true, warnings := warnings2 }
    else
      { content := String.mk combined1, wasTruncated := wasTruncated1,
        warnings := warnings1 }

theorem length_mk (l : List Char) : (String.mk l).length = l.length := rfl

theorem length_le_of_tokens_le (l : List Char)
    (h : estimateTokens l ≤ MAX_TOKENS) : l.length ≤ MAX_TOKENS * 4 := by
  rw [estimateTokens] at h
  rw [MAX_TOKENS] at h ⊢
  have hdm := Nat.div_add_mod (l.length + 3) 4
  have hlt : (l.length + 3) % 4 < 4 := Nat.mod_lt _ (by norm_num)
  omega

/-- **C1.** For every input diff string, `processDiffContent` returns a
result whose content has character length at most `MAX_TOKENS × 4 =
200000`: the early-return case returns the (necessarily empty) input
unchanged, the tier-1 and tier-2 exits are guarded by the token estimate,
and the tier-3 exit hard-truncates to `MAX_TOKENS × 4` characters. The
function is total by construction (it never fails). -/
theorem processDiffContent_content_le (d : String) :
    (processDiffContent d).content.length ≤ MAX_TOKENS * 4 := by
  dsimp only [processDiffContent]
  split_ifs with h1 h2 h3
  · -- early return: empty section list only happens for the empty input
    have hd : d = "" := fileSections_nil_imp d (by
      cases h : fileSections d with
      | nil => rfl
      | cons x xs => rw [h] at h1; simp at h1)
    subst hd
    norm_num [String.length]
  · -- tier 3: hard cutoff
    simp only [length_mk, List.length_take]
    exact min_le_left _ _
  · -- tier 2 fits the budget
    simp only [length_mk]
    exact length_le_of_tokens_le _ (Nat.le_of_not_lt h3)
  · -- tier 1 fits the budget
    simp only [length_mk]
    exact length_le_of_tokens_le _ (Nat.le_of_not_lt h2)

/-- **C2, counterexample.** A diff with two file sections, well within the
token budget and per-file line cap, is *not* returned verbatim:
`join('\n')` re-inserts a newline between sections that already end in a
newline, so one extra blank line appears before the second `diff --git`
header (`wasTruncated` and `warnings` are nevertheless clean). -/
theorem processDiffContent_two_sections_not_id :
    estimateTokens ("diff --git a/a b/a\n+x\ndiff --git a/b b/b\n+y" : String).data
        ≤ MAX_TOKENS ∧
      (∀ s ∈ fileSections "diff --git a/a b/a\n+x\ndiff --git a/b b/b\n+y",
        (splitLinesChars s).length ≤ MAX_LINES_PER_FILE) ∧
      (processDiffContent "diff --git a/a b/a\n+x\ndiff --git a/b b/b\n+y").content ≠
        "diff --git a/a b/a\n+x\ndiff --git a/b b/b\n+y" := by
  refine ⟨by decide, by decide, by decide⟩

/-- **C2, amended.** If no per-file section exceeds the
`MAX_LINES_PER_FILE` cap and the `'\n'`-joined reassembly of the file
sections fits the token budget, `processDiffContent` returns exactly that
reassembly — the input text with one extra newline inserted between
consecutive file sections — untruncated and with no warnings; it equals
the input itself whenever there is at most one file section. -/
theorem processDiffContent_small_diff (d : String)
    (hLines : ∀ s ∈ fileSections d, (splitLinesChars s).length ≤ MAX_LINES_PER_FILE)
    (hTok : estimateTokens (joinLinesChars (fileSections d)) ≤ MAX_TOKENS) :
    (processDiffContent d).content = String.mk (joinLinesChars (fileSections d)) ∧
      (processDiffContent d).wasTruncated = false ∧
      (processDiffContent d).warnings = [] ∧
      ((fileSections d).length ≤ 1 → (processDiffContent d).content = d) := by
  have hmap : (fileSections d).map limitSectionLines =
      (fileSections d).map (fun s => (s, (none : Option String))) := by
    apply List.map_congr_left
    intro s hs
    dsimp only [limitSectionLines]
    rw [if_neg (not_lt.mpr (hLines s hs))]
  have hfst : ∀ l : List (List Char),
      ((l.map (fun s => (s, (none : Option String)))).map Prod.fst) = l := by
    intro l
    induction l with
    | nil => rfl
    | cons x xs ih => simp only [List.map_cons]; rw [ih]
  have hwarn : (((fileSections d).map
      (fun s => (s, (none : Option String)))).filterMap Prod.snd) = [] := by
    simp
  have hany : (((fileSections d).map
      (fun s => (s, (none : Option String)))).any (fun p => p.snd.isSome)) = false := by
    simp
  dsimp only [processDiffContent]
  by_cases hE : (fileSections d).isEmpty
  · rw [if_pos hE]
    have hnil : fileSections d = [] := by
      cases h : fileSections d with
      | nil => rfl
      | cons x xs => rw [h] at hE; simp at hE
    have hd : d = "" := fileSections_nil_imp d hnil
    subst hd
    simp [hnil, joinLinesChars]
  · rw [if_neg hE]
    rw [hmap, hfst (fileSections d), hwarn, hany]
    rw [if_neg (not_lt.mpr hTok)]
    refine ⟨rfl, rfl, rfl, ?_⟩
    intro hlen
    rcases hsec : fileSections d with _ | ⟨s, rest⟩
    · rw [hsec] at hE; simp at hE
    · have hrest : rest = [] := by
        rw [hsec] at hlen; simpa using hlen
      subst hrest
      have hsd : s = d.data := by
        have hfl := flatten_fileSections d
        rw [hsec] at hfl
        simpa using hfl
      show String.mk (joinLinesChars [s]) = d
      rw [show joinLinesChars [s] = s from rfl, hsd]

/-- **C2, witness.** A single-section in-budget diff passes through the
pipeline completely unmodified and warning-free. -/
theorem processDiffContent_small_diff_witness :
    (processDiffContent "diff --git a/a b/a\n+x").content = "diff --git a/a b/a\n+x" ∧
      (processDiffContent "diff --git a/a b/a\n+x").warnings = [] := by
  have h := processDiffContent_small_diff "diff --git a/a b/a\n+x"
    (by decide) (by decide)
  exact ⟨h.2.2.2 (by decide), h.2.2.1⟩

/-! ## Virtual scrolling (`getVisibleRange` in `src/ai.ts`)

`Math.max(0, a - b)` on naturals is truncated subtraction; `Math.floor` on
a natural quotient is `Nat` division. -/

/-- The visible window of the file picker: centre a window of at most
`maxVisible` items on the cursor, clamp the end to `totalFiles`, and
re-anchor the start if the end clamp shrank the window. -/
def getVisibleRange (selectedIndex totalFiles maxVisible : Nat) : Nat × Nat :=
  if totalFiles ≤ maxVisible then
    (0, totalFiles)
  else
    let halfWindow := maxVisible / 2
    let start := selectedIndex - halfWindow
    let stop := min totalFiles (start + maxVisible)
    if stop - start < maxVisible then
      (stop - maxVisible, stop)
    else
      (start, stop)

/-- **C4, counterexample.** With `maxVisible = 0` (never produced by the
caller, which floors the window size at 5, but allowed by the claim's
quantifier over all naturals) the window is empty and cannot contain the
cursor: `getVisibleRange 0 1 0 = (0, 0)` yet the claim requires
`cursor < end`. -/
theorem getVisibleRange_zero_window :
    0 < 1 ∧ getVisibleRange 0 1 0 = (0, 0) ∧
      ¬ 0 < (getVisibleRange 0 1 0).2 := by decide

/-- **C4, amended.** For all `N`, `M`, `cursor` with `0 < M` and
`cursor < N`, the window `[start, stop)` computed by `getVisibleRange`
satisfies `start ≤ cursor < stop`, `stop - start ≤ M`, and `stop ≤ N`
(`0 ≤ start` holds trivially over naturals). -/
theorem getVisibleRange_bounds (cursor N M : Nat) (hM : 0 < M) (hc : cursor < N) :
    (getVisibleRange cursor N M).1 ≤ cursor ∧
      cursor < (getVisibleRange cursor N M).2 ∧
      (getVisibleRange cursor N M).2 - (getVisibleRange cursor N M).1 ≤ M ∧
      (getVisibleRange cursor N M).2 ≤ N := by
  dsimp only [getVisibleRange]
  split_ifs with h1 h2 <;> dsimp only
  · -- everything fits: window is [0, N)
    omega
  · -- end clamp shrank the window: re-anchored to [stop - M, stop)
    have hN : M < N := Nat.lt_of_not_le h1
    have hhalf : M / 2 < M := Nat.div_lt_self hM (by norm_num)
    rcases min_cases N (cursor - M / 2 + M) with ⟨hEq, hle⟩ | ⟨hEq, hle⟩ <;>
      rw [hEq] at h2 ⊢ <;> omega
  · -- no shrink: window is [start, min N (start + M))
    have hN : M < N := Nat.lt_of_not_le h1
    have hhalf : M / 2 < M := Nat.div_lt_self hM (by norm_num)
    rcases min_cases N (cursor - M / 2 + M) with ⟨hEq, hle⟩ | ⟨hEq, hle⟩ <;>
      rw [hEq] at h2 ⊢ <;> omega

/-- **C4, witness.** A concrete instance of the window bounds: 100 files,
a 7-row window, cursor at index 50. -/
theorem getVisibleRange_bounds_witness :
    (getVisibleRange 50 100 7).1 ≤ 50 ∧
      50 < (getVisibleRange 50 100 7).2 ∧
      (getVisibleRange 50 100 7).2 - (getVisibleRange 50 100 7).1 ≤ 7 ∧
      (getVisibleRange 50 100 7).2 ≤ 100 :=
  getVisibleRange_bounds 50 100 7 (by decide) (by decide)

/-! ## File classification (`analyzeChangedFiles` in `src/ai.ts`)

The path-pattern regexes are suffix, or substring, matchers; the
alternations are expanded into explicit suffix/substring lists. -/

/-- Substring occurrence of `pat` in a character list. -/
def hasInfixChars (pat : List Char) : List Char → Bool
  | [] => pat.isEmpty
  | c :: cs => pat.isPrefixOf (c :: cs) || hasInfixChars pat cs

/-- JS `pattern test` as plain substring containment (an unanchored regex
of literal characters). -/
def containsSub (f : String) (pat : String) : Bool :=
  hasInfixChars pat.data f.data

/-- An anchored (`$`) literal-alternation regex: suffix match. -/
def endsWithStr (f : String) (suf : String) : Bool :=
  suf.data.isSuffixOf f.data

/-- Lower-casing for the case-insensitive (`/i`) regexes. -/
def lowerStr (f : String) : String :=
  String.mk (f.data.map Char.toLower)

/-- `/\.(test|spec)\.(js|ts|jsx|tsx)$|\/tests?\//`. -/
def isTestFile (f : String) : Bool :=
  ([".test.js", ".test.ts", ".test.jsx", ".test.tsx",
    ".spec.js", ".spec.ts", ".spec.jsx", ".spec.tsx"].any (endsWithStr f)) ||
  containsSub f "/test/" || containsSub f "/tests/"

/-- `/\.(md|txt|rst)$|\/docs?\//i`. -/
def isDocFile (f : String) : Bool :=
  ([".md", ".txt", ".rst"].any (endsWithStr (lowerStr f))) ||
  containsSub (lowerStr f) "/doc/" || containsSub (lowerStr f) "/docs/"

/-- `/(package\.json|tsconfig|webpack|babel|eslint|prettier|vite|rollup)/`. -/
def isConfigFile (f : String) : Bool :=
  ["package.json", "tsconfig", "webpack", "babel",
    "eslint", "prettier", "vite", "rollup"].any (containsSub f)

/-- `/\.(js|ts|jsx|tsx|py|java|cpp|c|go|rs|php)$/`. -/
def isSourceFile (f : String) : Bool :=
  [".js", ".ts", ".jsx", ".tsx", ".py", ".java", ".cpp", ".c",
    ".go", ".rs", ".php"].any (endsWithStr f)

/-- `/\.(css|scss|sass|less|styl)$/`. -/
def isStyleFile (f : String) : Bool :=
  [".css", ".scss", ".sass", ".less", ".styl"].any (endsWithStr f)

/-- `/(dockerfile|makefile|\.yml|\.yaml|\.toml|\.ini)$/i`. -/
def isBuildFile (f : String) : Bool :=
  ["dockerfile", "makefile", ".yml", ".yaml", ".toml", ".ini"].any
    (endsWithStr (lowerStr f))

def testFilesOf (files : List String) : List String :=
  files.filter isTestFile

def docFilesOf (files : List String) : List String :=
  files.filter isDocFile

def configFilesOf (files : List String) : List String :=
  files.filter isConfigFile

/-- `sourceFiles` excludes anything already in the `testFiles` list
(`!testFiles.includes(f)`). -/
def sourceFilesOf (files : List String) : List String :=
  files.filter (fun f => isSourceFile f && !((testFilesOf files).contains f))

def styleFilesOf (files : List String) : List String :=
  files.filter isStyleFile

def buildFilesOf (files : List String) : List String :=
  files.filter isBuildFile

structure Category where
  name : String
  files : List String
deriving DecidableEq, Repr

structure FileAnalysis where
  categories : List Category
  suggestedType : String
  suggestedScope : String
  changePattern : String
deriving DecidableEq, Repr

/-- `analyzeChangedFiles(files)` (`src/ai.ts`): bucket the changed paths,
then derive a suggested commit type, scope and change pattern. -/
def analyzeChangedFiles (files : List String) : FileAnalysis :=
  let testFiles := testFilesOf files
  let docFiles := docFilesOf files
  let configFiles := configFilesOf files
  let sourceFiles := sourceFilesOf files
  let styleFiles := styleFilesOf files
  let buildFiles := buildFilesOf files
  let categories :=
    (if testFiles.length > 0 then [Category.mk "Tests" testFiles] else []) ++
    (if docFiles.length > 0 then [Category.mk "Documentation" docFiles] else []) ++
    (if configFiles.length > 0 then [Category.mk "Configuration" configFiles] else []) ++
    (if sourceFiles.length > 0 then [Category.mk "Source Code" sourceFiles] else []) ++
    (if styleFiles.length > 0 then [Category.mk "Styles" styleFiles] else []) ++
    (if buildFiles.length > 0 then [Category.mk "Build/Deploy" buildFiles] else [])
  let suggestedType :=
    if testFiles.length > 0 ∧ sourceFiles.length = 0 then "test"
    else if docFiles.length > 0 ∧ sourceFiles.length = 0 then "docs"
    else if configFiles.length > 0 ∧ sourceFiles.length = 0 then "chore"
    else if styleFiles.length > 0 ∧ sourceFiles.length = 0 then "style"
    else if buildFiles.length > 0 ∧ sourceFiles.length = 0 then "ci"
    else "feat"
  let suggestedScope :=
    if configFiles.any (fun f => containsSub f "package.json") then "deps"
    else if files.any (fun f => containsSub f "/api/" || containsSub f "/server/") then
      "api"
    else if files.any (fun f => containsSub f "/ui/" || containsSub f "/component/" ||
        containsSub f "/components/" || containsSub f "/frontend/") then
      "ui"
    else if files.any (fun f => containsSub f "/auth/" || containsSub f "/login/" ||
        containsSub f "/security/") then
      "auth"
    else if files.any (fun f => containsSub f "/db/" || containsSub f "/database/" ||
        containsSub f "/model/" || containsSub f "/models/") then
      "db"
    else if files.any (fun f => containsSub f "/util/" || containsSub f "/utils/" ||
        containsSub f "/helper/" || containsSub f "/helpers/") then
      "utils"
    else if files.any (fun f => containsSub f "/core/" || containsSub f "/lib/") then
      "core"
    else ""
  let changePattern :=
    if categories.length = 1 then
      match categories.head? with
      | some c =>
        if c.name = "Tests" then "test additions/updates"
        else if c.name = "Documentation" then "documentation updates"
        else if c.name = "Configuration" then "configuration changes"
        else if c.name = "Source Code" then "source code modifications"
        else "mixed changes"
      | none => "mixed changes"
    else if testFiles.length > 0 ∧ sourceFiles.length > 0 then "feature with tests"
    else if configFiles.length > 0 ∧ sourceFiles.length = 0 then "configuration only"
    else "mixed changes"
  FileAnalysis.mk categories suggestedType suggestedScope changePattern

theorem mem_if_singleton {α : Type} {p : Prop} [Decidable p] {a x : α}
    (h : a ∈ (if p then [x] else [])) : a = x := by
  by_cases hp : p
  · rw [if_pos hp] at h; simpa using h
  · rw [if_neg hp] at h; simp at h

/-- Every category produced by `analyzeChangedFiles` is one of the six
named buckets. -/
theorem mem_categories_cases (files : List String) (c : Category)
    (hc : c ∈ (analyzeChangedFiles files).categories) :
    c = Category.mk "Tests" (testFilesOf files) ∨
    c = Category.mk "Documentation" (docFilesOf files) ∨
    c = Category.mk "Configuration" (configFilesOf files) ∨
    c = Category.mk "Source Code" (sourceFilesOf files) ∨
    c = Category.mk "Styles" (styleFilesOf files) ∨
    c = Category.mk "Build/Deploy" (buildFilesOf files) := by
  dsimp only [analyzeChangedFiles] at hc
  simp only [List.mem_append] at hc
  rcases hc with ((((h | h) | h) | h) | h) | h
  · exact Or.inl (mem_if_singleton h)
  · exact Or.inr (Or.inl (mem_if_singleton h))
  · exact Or.inr (Or.inr (Or.inl (mem_if_singleton h)))
  · exact Or.inr (Or.inr (Or.inr (Or.inl (mem_if_singleton h))))
  · exact Or.inr (Or.inr (Or.inr (Or.inr (Or.inl (mem_if_singleton h)))))
  · exact Or.inr (Or.inr (Or.inr (Or.inr (Or.inr (mem_if_singleton h)))))

/-- **C5, counterexample.** The six bucket filters are independent (only
`sourceFiles` excludes `testFiles`), so the categories are not pairwise
disjoint: `"a/tests/readme.md"` matches both the test pattern
(`/tests/` directory) and the documentation pattern (`.md` extension), and
`analyzeChangedFiles` places it in both the Tests and Documentation
categories. -/
theorem analyzeChangedFiles_categories_overlap :
    Category.mk "Tests" ["a/tests/readme.md"] ∈
        (analyzeChangedFiles ["a/tests/readme.md"]).categories ∧
      Category.mk "Documentation" ["a/tests/readme.md"] ∈
        (analyzeChangedFiles ["a/tests/readme.md"]).categories ∧
      ¬ (analyzeChangedFiles ["a/tests/readme.md"]).categories.Pairwise
          (fun c₁ c₂ => ∀ f, f ∈ c₁.files → f ∉ c₂.files) := by
  refine ⟨by decide, by decide, by decide⟩

/-- **C5, amended.** The only disjointness `analyzeChangedFiles`
guarantees is the one written into the source-bucket filter: a path in the
Tests category is never in the Source Code category (test files are
excluded from the source bucket even when their extension matches); the
other buckets may overlap arbitrarily. -/
theorem tests_source_categories_disjoint (files : List String) (c₁ c₂ : Category)
    (h₁ : c₁ ∈ (analyzeChangedFiles files).categories)
    (h₂ : c₂ ∈ (analyzeChangedFiles files).categories)
    (hn₁ : c₁.name = "Tests") (hn₂ : c₂.name = "Source Code") :
    ∀ f, f ∈ c₁.files → f ∉ c₂.files := by
  have e₁ := mem_categories_cases files c₁ h₁
  have e₂ := mem_categories_cases files c₂ h₂
  rcases e₁ with e₁|e₁|e₁|e₁|e₁|e₁ <;> subst e₁ <;> simp only at hn₁ <;>
    first
      | exact absurd hn₁ (by decide)
      | (rcases e₂ with e₂|e₂|e₂|e₂|e₂|e₂ <;> subst e₂ <;> simp only at hn₂ <;>
          first
            | exact absurd hn₂ (by decide)
            | (intro f hf hsf
               rw [sourceFilesOf, List.mem_filter] at hsf
               have hcon : (testFilesOf files).contains f = true :=
                 List.elem_eq_true_of_mem hf
               rw [Bool.and_eq_true, Bool.not_eq_true'] at hsf
               exact absurd hcon (by rw [hsf.2.2]; decide)))

/-- **C5, witness.** For a change-set with a test file and a source file,
the test file is indeed absent from the Source Code bucket. -/
theorem tests_source_categories_disjoint_witness :
    "a/tests/x.test.ts" ∉
      (Category.mk "Source Code" ["src/app.ts"]).files :=
  tests_source_categories_disjoint ["a/tests/x.test.ts", "src/app.ts"]
    (Category.mk "Tests" ["a/tests/x.test.ts"])
    (Category.mk "Source Code" ["src/app.ts"])
    (by decide) (by decide) rfl rfl "a/tests/x.test.ts" (by decide)

/-- **C8, counterexample.** A non-homogeneous change-set need not suggest
`feat`: `"a/tests/readme.md"` falls in two categories (Tests and
Documentation), yet the suggested type is `"test"` because the
per-category checks only test that the *source* bucket is empty. -/
theorem suggestedType_heterogeneous_not_feat :
    1 < (analyzeChangedFiles ["a/tests/readme.md"]).categories.length ∧
      (analyzeChangedFiles ["a/tests/readme.md"]).suggestedType = "test" := by
  refine ⟨by decide, by decide⟩

/-- **C8, amended.** The suggested type is `feat` whenever the source
bucket is non-empty (and when every bucket is empty); otherwise the first
non-empty bucket in the order tests > docs > config > styles > build
determines the type, even for non-homogeneous change-sets. -/
theorem suggestedType_characterization (files : List String) :
    (analyzeChangedFiles files).suggestedType =
      if sourceFilesOf files ≠ [] then "feat"
      else if testFilesOf files ≠ [] then "test"
      else if docFilesOf files ≠ [] then "docs"
      else if configFilesOf files ≠ [] then "chore"
      else if styleFilesOf files ≠ [] then "style"
      else if buildFilesOf files ≠ [] then "ci"
      else "feat" := by
  dsimp only [analyzeChangedFiles]
  by_cases hs : sourceFilesOf files = []
  · simp [hs, List.length_pos]
  · simp [hs, List.length_eq_zero]

/-! ## The settings store (`src/config.ts`)

The store is a `conf` instance created with
`defaults: { baseUrl: 'https://api.openai.com/v1', model: 'gpt-4o-mini' }`.
Per the `conf` library, `config.get(key)` returns the explicitly stored
value when one exists and otherwise the value given in `defaults` (no
default is declared for `apiKey` or `language`). JS `a || b` takes `b`
when `a` is `undefined` *or the empty string*. -/

/-- The explicitly stored (on-disk) values; `none` = never set. -/
structure StoredConfig where
  apiKey : Option String
  baseUrl : Option String
  model : Option String
  language : Option String
deriving DecidableEq, Repr

/-- The process environment variables the store consults. -/
structure Env where
  OPENAI_API_KEY : Option String
  OPENAI_BASE_URL : Option String
deriving DecidableEq, Repr

/-- JS truthiness of an optional string: `undefined` and `""` are falsy. -/
def truthy : Option String → Bool
  | none => false
  | some v => v ≠ ""

/-- JS `a || b` on two optional strings. -/
def jsOrOpt (a b : Option String) : Option String :=
  if truthy a then a else b

/-- JS `a || b` with a final (string) fallback. -/
def jsOr (a : Option String) (b : String) : String :=
  match a with
  | some v => if v = "" then b else v
  | none => b

/-- `conf.get('baseUrl')`: stored value, else the declared default. -/
def confGetBaseUrl (st : StoredConfig) : Option String :=
  match st.baseUrl with
  | some v => some v
  | none => some "https://api.openai.com/v1"

/-- `conf.get('model')`: stored value, else the declared default. -/
def confGetModel (st : StoredConfig) : Option String :=
  match st.model with
  | some v => some v
  | none => some "gpt-4o-mini"

/-- The resolved configuration returned by `getConfig`. -/
structure Config where
  apiKey : Option String
  baseUrl : String
  model : String
  language : String
deriving DecidableEq, Repr

/-- `getConfig()` (`src/config.ts`):
`apiKey: config.get('apiKey') || process.env.OPENAI_API_KEY`,
`baseUrl: config.get('baseUrl') || process.env.OPENAI_BASE_URL || default`,
`model: config.get('model') || default`, `language: ... || 'en'`. -/
def getConfig (st : StoredConfig) (env : Env) : Config :=
  { apiKey := jsOrOpt st.apiKey env.OPENAI_API_KEY
    baseUrl := jsOr (jsOrOpt (confGetBaseUrl st) env.OPENAI_BASE_URL)
      "https://api.openai.com/v1"
    model := jsOr (confGetModel st) "gpt-4o-mini"
    language := jsOr st.language "en" }

/-- A single settings update record (`Partial<Config>`): `none` = field
absent from the update. -/
structure ConfigUpdate where
  apiKey : Option String
  baseUrl : Option String
  model : Option String
  language : Option String
deriving DecidableEq, Repr

/-- `setConfig(updates)` (`src/config.ts`): each field is written through
`config.set` only when `if (updates.field)` — i.e. only when the supplied
value is truthy. -/
def setConfig (st : StoredConfig) (u : ConfigUpdate) : StoredConfig :=
  let st1 := if truthy u.apiKey then { st with apiKey := u.apiKey } else st
  let st2 := if truthy u.baseUrl then { st1 with baseUrl := u.baseUrl } else st1
  let st3 := if truthy u.model then { st2 with model := u.model } else st2
  if truthy u.language then { st3 with language := u.language } else st3

/-- `hasValidConfig()`: the resolved credential is truthy. -/
def hasValidConfig (st : StoredConfig) (env : Env) : Bool :=
  truthy (getConfig st env).apiKey

/-- **C6.** The endpoint environment variable is dead code: because the
`conf` store declares a default for `baseUrl`, `config.get('baseUrl')` is
always truthy, so with no explicitly stored endpoint and
`OPENAI_BASE_URL` set, `getConfig` returns the hardcoded default — not the
environment endpoint the claim (and the code's own `||` fallback chain)
promises. The credential half of the chain does behave as claimed. -/
theorem getConfig_env_baseUrl_dead :
    (getConfig (StoredConfig.mk none none none none)
        (Env.mk none (some "https://example.com/v1"))).baseUrl
        = "https://api.openai.com/v1" ∧
      (getConfig (StoredConfig.mk none none none none)
        (Env.mk none (some "https://example.com/v1"))).baseUrl
        ≠ "https://example.com/v1" ∧
      (getConfig (StoredConfig.mk none none none none)
        (Env.mk (some "sk-key") none)).apiKey = some "sk-key" := by
  refine ⟨by decide, by decide, by decide⟩

/-- **C9, counterexample.** A field *present* in the update but carrying
the empty string is not persisted: `if (updates.apiKey)` is false for
`""`, so the stored credential survives an update that tries to blank
it. -/
theorem setConfig_empty_string_not_persisted :
    (setConfig (StoredConfig.mk (some "k") none none none)
        (ConfigUpdate.mk (some "") none none none)).apiKey = some "k" ∧
      (setConfig (StoredConfig.mk (some "k") none none none)
        (ConfigUpdate.mk (some "") none none none)).apiKey ≠ some "" := by
  refine ⟨by decide, by decide⟩

/-- **C9, amended.** `setConfig` persists exactly the fields whose
supplied value is truthy (present and non-empty); absent fields and
present-but-empty-string fields leave the stored value untouched. In
particular updating only the model leaves credential, endpoint and
language stores unchanged. -/
theorem setConfig_frame (st : StoredConfig) (u : ConfigUpdate) :
    (truthy u.apiKey = true → (setConfig st u).apiKey = u.apiKey) ∧
      (truthy u.apiKey = false → (setConfig st u).apiKey = st.apiKey) ∧
      (truthy u.baseUrl = true → (setConfig st u).baseUrl = u.baseUrl) ∧
      (truthy u.baseUrl = false → (setConfig st u).baseUrl = st.baseUrl) ∧
      (truthy u.model = true → (setConfig st u).model = u.model) ∧
      (truthy u.model = false → (setConfig st u).model = st.model) ∧
      (truthy u.language = true → (setConfig st u).language = u.language) ∧
      (truthy u.language = false → (setConfig st u).language = st.language) := by
  dsimp only [setConfig]
  rcases hA : truthy u.apiKey <;> rcases hB : truthy u.baseUrl <;>
    rcases hM : truthy u.model <;> rcases hL : truthy u.language <;>
    simp [hA, hB, hM, hL]

/-- **C9, witness.** Updating only the model (with the credential slot of
the update carrying an ignored empty string) persists the model and leaves
the stored credential unchanged. -/
theorem setConfig_frame_witness :
    (setConfig (StoredConfig.mk (some "k") none (some "m") none)
        (ConfigUpdate.mk (some "") none (some "m2") none)).apiKey = some "k" ∧
      (setConfig (StoredConfig.mk (some "k") none (some "m") none)
        (ConfigUpdate.mk (some "") none (some "m2") none)).model = some "m2" := by
  have h := setConfig_frame (StoredConfig.mk (some "k") none (some "m") none)
    (ConfigUpdate.mk (some "") none (some "m2") none)
  exact ⟨h.2.1 (by decide), h.2.2.2.2.1 (by decide)⟩

/-! ## The pending-changes query (`hasChanges` in `src/git.ts`)

`hasChanges` runs three backend commands in sequence inside one
`try { ... } catch { return false; }`: the first failure aborts the
sequence and the whole call returns `false`. -/

/-- The result of one backend command invocation. -/
inductive CmdResult where
  | ok (stdout : String)
  | fail
deriving DecidableEq, Repr

/-- The three backend queries `hasChanges` issues, as an oracle: `git diff
--cached --name-only`, `git diff --name-only`, `git ls-files --others
--exclude-standard`. -/
structure PendingQueries where
  stagedNames : CmdResult
  unstagedNames : CmdResult
  untrackedNames : CmdResult
deriving DecidableEq, Repr

/-- `hasChanges()` (`src/git.ts`): true when any of the three trimmed
outputs is non-empty; any command failure is caught and yields `false`. -/
def hasChanges (q : PendingQueries) : Bool :=
  match q.stagedNames, q.unstagedNames, q.untrackedNames with
  | CmdResult.ok a, CmdResult.ok b, CmdResult.ok c =>
    a.trim.length > 0 || b.trim.length > 0 || c.trim.length > 0
  | _, _, _ => false

/-- **C7, counterexample.** A failing backend run is silently treated as
"no changes": with the staged-names query failing (and unstaged changes
in fact present), `hasChanges` returns `false` instead of surfacing a
typed error. -/
theorem hasChanges_swallows_failure :
    (PendingQueries.mk CmdResult.fail (CmdResult.ok "m.ts")
        (CmdResult.ok "")).stagedNames = CmdResult.fail ∧
      hasChanges (PendingQueries.mk CmdResult.fail (CmdResult.ok "m.ts")
        (CmdResult.ok "")) = false := by
  refine ⟨by decide, by decide⟩

/-- **C7, amended.** `hasChanges` catches every backend failure and
reports `false` ("no changes") — it never throws; on an all-success run it
is true iff some trimmed output is non-empty. (The ChangeSet queries
`getStagedChanges` / `getUnstagedChanges` / `getAllChanges`, by contrast,
re-throw failures as typed errors.) -/
theorem hasChanges_false_on_failure (q : PendingQueries)
    (h : q.stagedNames = CmdResult.fail ∨ q.unstagedNames = CmdResult.fail ∨
      q.untrackedNames = CmdResult.fail) :
    hasChanges q = false := by
  obtain ⟨s, u, t⟩ := q
  dsimp only at h
  rcases h with h | h | h <;> subst h
  · cases u <;> cases t <;> rfl
  · cases s <;> cases t <;> rfl
  · cases s <;> cases u <;> rfl

/-- **C7, witness.** The amended behaviour at a concrete failing run. -/
theorem hasChanges_false_on_failure_witness :
    hasChanges (PendingQueries.mk (CmdResult.ok "a.ts") CmdResult.fail
      (CmdResult.ok "b.md")) = false :=
  hasChanges_false_on_failure _ (Or.inr (Or.inl rfl))

/-! ## The temporary stage/diff/unstage sequence
(`generateCommitMessageForFiles` in `src/ai.ts`)

```
try {
  await git.stageFiles(selectedFiles);     // no-op when the list is empty
  const tempDiff = await git.getStagedChanges();
  await git.resetStagedFiles();            // immediate unstage
  ... await ai.generateCommitMessage(tempDiff); ... setStage('review');
} catch (err) {
  try { await git.resetStagedFiles(); } catch { /* ignored */ }
  setError(<primary error>); setStage('error');
}
```

The backend is modelled as an oracle saying which invocation succeeds;
`git add <paths>` appends the paths to the staged set, a successful
`git reset` empties it, and a failed invocation leaves it unchanged. -/

/-- Which backend/model invocations succeed during one run. -/
structure StageOracle where
  stageOk : Bool
  diffOk : Bool
  resetOk : Bool
  cleanupResetOk : Bool
  generateOk : Bool
deriving DecidableEq, Repr

/-- The operations observable in a run, in invocation order. -/
inductive GitOp where
  | stageOp
  | diffOp
  | resetOp
  | generateOp
deriving DecidableEq, Repr

/-- The primary failure of a run, by failing operation. -/
inductive GitError where
  | stageFailed
  | diffFailed
  | resetFailed
  | generateFailed
deriving DecidableEq, Repr

/-- Reaching the review stage, or landing in the error stage with the
primary error. -/
inductive Outcome where
  | review
  | error (e : GitError)
deriving DecidableEq, Repr

/-- The observable result of one run: outcome, final staged paths, and the
trace of backend/model invocations (the cleanup `resetStagedFiles` attempt
included). -/
structure RunResult where
  outcome : Outcome
  finalStaged : List String
  trace : List GitOp
deriving DecidableEq, Repr

/-- The catch block: attempt `resetStagedFiles` once more, ignore its
failure, and report the primary error. -/
def cleanupRun (o : StageOracle) (e : GitError) (staged : List String)
    (tr : List GitOp) : RunResult :=
  { outcome := Outcome.error e
    finalStaged := if o.cleanupResetOk then [] else staged
    trace := tr ++ [GitOp.resetOp] }

/-- The body after `stageFiles`: diff, primary reset, then generation. -/
def runAfterStage (o : StageOracle) (staged : List String)
    (tr : List GitOp) : RunResult :=
  if o.diffOk then
    if o.resetOk then
      if o.generateOk then
        { outcome := Outcome.review
          finalStaged := []
          trace := tr ++ [GitOp.diffOp, GitOp.resetOp, GitOp.generateOp] }
      else
        cleanupRun o GitError.generateFailed []
          (tr ++ [GitOp.diffOp, GitOp.resetOp, GitOp.generateOp])
    else
      cleanupRun o GitError.resetFailed staged (tr ++ [GitOp.diffOp, GitOp.resetOp])
  else
    cleanupRun o GitError.diffFailed staged (tr ++ [GitOp.diffOp])

/-- `generateCommitMessageForFiles(selectedFiles)` over an initial staged
set: `stageFiles` returns without touching the backend when the list is
empty; a successful `git add` appends the selected paths. -/
def runGenerateForFiles (o : StageOracle) (files : List String)
    (staged0 : List String) : RunResult :=
  if files.isEmpty then
    runAfterStage o staged0 []
  else if o.stageOk then
    runAfterStage o (staged0 ++ files) [GitOp.stageOp]
  else
    cleanupRun o GitError.stageFailed staged0 [GitOp.stageOp]

/-- **C3, counterexample.** An errored attempt does *not* always leave the
staging area unchanged: when reading the staged diff fails and the cleanup
unstage also fails (its failure is swallowed), the selected path stays
staged even though the staging area was empty before the attempt; the
reported error is still the primary (diff) one. -/
theorem runGenerateForFiles_staging_can_leak :
    (runGenerateForFiles
        (StageOracle.mk true false true false true) ["f.ts"] []).outcome
        = Outcome.error GitError.diffFailed ∧
      (runGenerateForFiles
        (StageOracle.mk true false true false true) ["f.ts"] []).finalStaged
        = ["f.ts"] := by
  refine ⟨by decide, by decide⟩

/-- **C3, amended.** Over an initially empty staging area: on success the
invocation order is stage, diff, unstage, generate — the selected paths
are unstaged *before* generation — and the staging area ends empty. On any
primary failure the catch path re-attempts the unstage (the trace always
ends with a reset attempt), the reported error is the primary error and is
unaffected by whether the cleanup unstage succeeds, and the staging area
is left unchanged (empty) provided the cleanup unstage succeeds. -/
theorem runGenerateForFiles_cleanup (o : StageOracle) (files : List String) :
    ((runGenerateForFiles o files []).outcome = Outcome.review →
      (runGenerateForFiles o files []).finalStaged = [] ∧
      (runGenerateForFiles o files []).trace =
        (if files.isEmpty then [] else [GitOp.stageOp]) ++
          [GitOp.diffOp, GitOp.resetOp, GitOp.generateOp]) ∧
    (∀ e, (runGenerateForFiles o files []).outcome = Outcome.error e →
      (runGenerateForFiles o files []).trace.getLast? = some GitOp.resetOp ∧
      (runGenerateForFiles
        { o with cleanupResetOk := !o.cleanupResetOk } files []).outcome
        = Outcome.error e ∧
      (o.cleanupResetOk = true →
        (runGenerateForFiles o files []).finalStaged = [])) := by
  obtain ⟨so, dk, rk, ck, gk⟩ := o
  by_cases hf : files.isEmpty <;>
    cases so <;> cases dk <;> cases rk <;> cases ck <;> cases gk <;>
      simp [runGenerateForFiles, runAfterStage, cleanupRun, hf]

/-- **C3, witness.** Concrete instances of the amended property: an
all-success run unstages before generating and ends with nothing staged; a
diff-failure run with working cleanup reports the diff error and also ends
with nothing staged. -/
theorem runGenerateForFiles_cleanup_witness :
    (runGenerateForFiles (StageOracle.mk true true true true true)
        ["f.ts"] []).finalStaged = [] ∧
      (runGenerateForFiles (StageOracle.mk true true true true true)
        ["f.ts"] []).trace =
        [GitOp.stageOp, GitOp.diffOp, GitOp.resetOp, GitOp.generateOp] ∧
      (runGenerateForFiles (StageOracle.mk true false true true true)
        ["f.ts"] []).finalStaged = [] := by
  have h1 := runGenerateForFiles_cleanup
    (StageOracle.mk true true true true true) ["f.ts"]
  have h2 := runGenerateForFiles_cleanup
    (StageOracle.mk true false true true true) ["f.ts"]
  refine ⟨(h1.1 (by decide)).1, ?_, (h2.2 GitError.diffFailed (by decide)).2.2 (by decide)⟩
  have := (h1.1 (by decide)).2
  simpa using this

/-! ## The interactive picker (`FileSelector` in `src/ai.ts`)

The `useInput` handler is a transition function on
`{showAllNewFiles, selectedIndex, selectedFiles}`. A JS `Set` preserves
insertion order and ignores re-inserted duplicates; it is modelled as a
duplicate-free list. `allFiles` — the *rendered* list — shows only the
first 10 untracked files while collapsed, but the select-all handler reads
`files.untracked` directly. -/

/-- The candidate file lists handed to the picker. -/
structure FileLists where
  modified : List String
  untracked : List String
deriving DecidableEq, Repr

/-- Picker state: expansion flag, cursor, and the selected set. -/
structure SelectorState where
  showAllNewFiles : Bool
  selectedIndex : Nat
  selectedFiles : List String
deriving DecidableEq, Repr

/-- `new Set(...)` from a list: keep the first occurrence of each
element. -/
def jsSetInsert (l : List String) (x : String) : List String :=
  if x ∈ l then l else l ++ [x]

/-- JS `new Set(list)` as a duplicate-free list in insertion order. -/
def jsSetOf (l : List String) : List String :=
  l.foldl jsSetInsert []

/-- The keyboard events the handler distinguishes. -/
inductive PickerEvent where
  | upArrow
  | downArrow
  | ctrlA
  | ctrlE
  | space
  | keyA
  | keyD
  | keyM
  | ret
  | esc
deriving DecidableEq, Repr

/-- One step either stays in the picker, submits the selected sequence, or
cancels. -/
inductive PickerOutcome where
  | continue_ (s : SelectorState)
  | submit (files : List String)
  | cancel
deriving DecidableEq, Repr

/-- The initial picker state: cursor at 0, only the modified (tracked)
files selected, untracked list collapsed. -/
def initialSelector (files : FileLists) : SelectorState :=
  SelectorState.mk false 0 (jsSetOf files.modified)

/-- The `useInput` handler of `FileSelector` as a transition function.
`allFiles = [...files.modified, ...visibleNewFiles]` is the rendered list;
cursor moves clamp to it. The select-all branch uses the *full*
`files.untracked`, the expand branch only toggles when more than 10
untracked files exist, and confirm submits only a non-empty selection. -/
def pickerStep (files : FileLists) (s : SelectorState) (ev : PickerEvent) :
    PickerOutcome :=
  let visibleNewFiles :=
    if s.showAllNewFiles then files.untracked else files.untracked.take 10
  let allFiles := files.modified ++ visibleNewFiles
  match ev with
  | PickerEvent.upArrow =>
    if s.selectedIndex > 0 then
      PickerOutcome.continue_ { s with selectedIndex := s.selectedIndex - 1 }
    else PickerOutcome.continue_ s
  | PickerEvent.downArrow =>
    if s.selectedIndex < allFiles.length - 1 then
      PickerOutcome.continue_ { s with selectedIndex := s.selectedIndex + 1 }
    else PickerOutcome.continue_ s
  | PickerEvent.ctrlA => PickerOutcome.continue_ { s with selectedIndex := 0 }
  | PickerEvent.ctrlE =>
    PickerOutcome.continue_ { s with selectedIndex := allFiles.length - 1 }
  | PickerEvent.space =>
    match allFiles.get? s.selectedIndex with
    | some file =>
      if file ∈ s.selectedFiles then
        PickerOutcome.continue_
          { s with selectedFiles := s.selectedFiles.erase file }
      else
        PickerOutcome.continue_
          { s with selectedFiles := jsSetInsert s.selectedFiles file }
    | none => PickerOutcome.continue_ s
  | PickerEvent.keyA =>
    PickerOutcome.continue_
      { s with selectedFiles := jsSetOf (files.modified ++ files.untracked) }
  | PickerEvent.keyD => PickerOutcome.continue_ { s with selectedFiles := [] }
  | PickerEvent.keyM =>
    if files.untracked.length > 10 then
      PickerOutcome.continue_ { s with showAllNewFiles := !s.showAllNewFiles }
    else PickerOutcome.continue_ s
  | PickerEvent.ret =>
    if s.selectedFiles.length > 0 then PickerOutcome.submit s.selectedFiles
    else PickerOutcome.continue_ s
  | PickerEvent.esc => PickerOutcome.cancel

theorem mem_jsSetInsert (l : List String) (x y : String) :
    y ∈ jsSetInsert l x ↔ y ∈ l ∨ y = x := by
  rw [jsSetInsert]
  split_ifs with h
  · constructor
    · exact fun hy => Or.inl hy
    · rintro (hy | hy)
      · exact hy
      · exact hy ▸ h
  · simp [List.mem_append]

theorem mem_jsSetOf_aux (l acc : List String) (y : String) :
    y ∈ l.foldl jsSetInsert acc ↔ y ∈ acc ∨ y ∈ l := by
  induction l generalizing acc with
  | nil => simp
  | cons x xs ih =>
    rw [List.foldl_cons, ih, mem_jsSetInsert]
    simp [or_assoc, List.mem_cons]

/-- Membership in the JS-set model is membership in the underlying
list. -/
theorem mem_jsSetOf (l : List String) (y : String) :
    y ∈ jsSetOf l ↔ y ∈ l := by
  rw [jsSetOf, mem_jsSetOf_aux]
  simp

/-- **C10.** From any picker state — in particular regardless of the
expanded/collapsed display state — the select-all key replaces the
selected set with the full modified ∪ untracked set, so untracked files
beyond the first 10 (not rendered while collapsed) are selected too; a
subsequent confirm submits that selection, and every untracked file is in
the emitted sequence. -/
theorem pickerStep_select_all_submits (files : FileLists) (s s' : SelectorState)
    (h : pickerStep files s PickerEvent.keyA = PickerOutcome.continue_ s')
    (hne : files.untracked ≠ []) :
    (∀ f, f ∈ s'.selectedFiles ↔ (f ∈ files.modified ∨ f ∈ files.untracked)) ∧
      ∃ out, pickerStep files s' PickerEvent.ret = PickerOutcome.submit out ∧
        ∀ f, f ∈ files.untracked → f ∈ out := by
  dsimp only [pickerStep] at h
  rw [PickerOutcome.continue_.injEq] at h
  subst h
  constructor
  · intro f
    dsimp only
    rw [mem_jsSetOf, List.mem_append]
  · have hpos : 0 < (jsSetOf (files.modified ++ files.untracked)).length := by
      rcases hu : files.untracked with _ | ⟨u, us⟩
      · exact absurd hu hne
      · exact List.length_pos.mpr
          (List.ne_nil_of_mem ((mem_jsSetOf _ u).mpr (by simp)))
    refine ⟨jsSetOf (files.modified ++ files.untracked), ?_, ?_⟩
    · dsimp only [pickerStep]
      rw [if_pos hpos]
    · intro f hf
      rw [mem_jsSetOf, List.mem_append]
      exact Or.inr hf

/-- Twelve untracked files: while collapsed, only the first 10 are
rendered. -/
def pickerWitnessFiles : FileLists :=
  FileLists.mk ["m1"]
    ["u1", "u2", "u3", "u4", "u5", "u6", "u7", "u8", "u9", "u10", "u11", "u12"]

/-- **C10, witness.** Starting from the initial (collapsed) state, pressing
select-all and confirming emits a sequence containing the 12th untracked
file, which was never rendered. -/
theorem pickerStep_select_all_submits_witness :
    ∃ out,
      pickerStep pickerWitnessFiles
          (SelectorState.mk false 0
            (jsSetOf (pickerWitnessFiles.modified ++ pickerWitnessFiles.untracked)))
          PickerEvent.ret = PickerOutcome.submit out ∧
        "u12" ∈ out := by
  obtain ⟨hmem, out, hsub, hall⟩ :=
    pickerStep_select_all_submits pickerWitnessFiles
      (initialSelector pickerWitnessFiles)
      (SelectorState.mk false 0
        (jsSetOf (pickerWitnessFiles.modified ++ pickerWitnessFiles.untracked)))
      (by decide) (by decide)
  exact ⟨out, hsub, hall "u12" (by decide)⟩

end OneCommit
